import Mathlib

/-!
Shallow embedding of the `private_transfers` Anchor program
(src/anchor/programs/private_transfers/src/lib.rs).

Modelling conventions:
* `[u8; 32]` values (commitments, roots, nullifier hashes, pubkeys) are
  `List Nat`; where a property depends on the width, a `length = 32`
  hypothesis is carried explicitly.
* `u64` values are `Nat`; where the source performs `u64` arithmetic whose
  wrap-around could matter, the reduction `% 2 ^ 64` is written explicitly.
* Fallible instruction handlers return `Except ExecError (state × event)`;
  the Solana runtime rolls back every account mutation of a failed
  instruction, so an `error` result means "state unchanged".  The wrappers
  `depositRun` / `withdrawRun` make this rollback explicit by returning the
  untouched pre-state next to the error.
* The external verifier program (reached by CPI from `withdraw`) is an
  oracle `List Nat → Bool` applied to the instruction data
  `proof ++ encode_public_inputs …`, exactly the bytes the source sends.
* Lamport transfers performed through the system program are modelled as
  all-or-nothing value moves: a deposit's transfer succeeds iff the
  depositor holds at least `amount` lamports.
-/

namespace PrivateTransfers

/-- 32-byte values (`[u8; 32]` in the source): commitments, Merkle roots,
nullifier hashes and raw pubkey bytes are all opaque byte strings. -/
abbrev Bytes32 := List Nat

/-- `2 ^ 64`, the modulus of `u64` arithmetic. -/
def U64_MOD : Nat := 2 ^ 64

/-- `pub const TREE_DEPTH: usize = 10` -/
def TREE_DEPTH : Nat := 10

/-- `pub const MAX_LEAVES: u64 = 1 << TREE_DEPTH` -/
def MAX_LEAVES : Nat := 1 <<< TREE_DEPTH

/-- `pub const MIN_DEPOSIT_AMOUNT: u64 = 1_000_000` -/
def MIN_DEPOSIT_AMOUNT : Nat := 1000000

/-- `pub const ROOT_HISTORY_SIZE: usize = 10` -/
def ROOT_HISTORY_SIZE : Nat := 10

/-- `pub const EMPTY_ROOT: [u8; 32]` — the well-known empty-tree root. -/
def EMPTY_ROOT : Bytes32 :=
  [0x2c, 0xb2, 0x57, 0x0a, 0x37, 0x3a, 0x05, 0x5f,
   0x49, 0x3d, 0xc4, 0xf1, 0x14, 0x5b, 0x27, 0x61,
   0x62, 0x3e, 0x59, 0x12, 0x42, 0x08, 0x3b, 0x38,
   0x21, 0xaa, 0x3b, 0x48, 0x9d, 0x15, 0x3c, 0x06]

/-- The all-zero 32-byte string: content of a freshly allocated account's
root slots before `roots[0]` is written. -/
def ZERO32 : Bytes32 := List.replicate 32 0

/-- The `#[error_code] enum PrivateTransfersError` of the source. -/
inductive PrivateTransfersError where
  | TreeFull
  | InvalidRoot
  | NullifierUsed
  | DepositTooSmall
  | NullifierSetFull
  | RecipientMismatch
  | InvalidVerifier
  | InsufficientVaultBalance
deriving DecidableEq, Repr

/-- Result of running an instruction: either a program error from the
source's error enum, or a failure of one of the external CPIs
(system-program transfer, verifier program). -/
inductive ExecError where
  | program (e : PrivateTransfersError)
  | systemTransferFailed
  | verifierFailed
deriving DecidableEq, Repr

/-- `pub struct Pool` (account state). -/
structure Pool where
  authority : Bytes32
  next_leaf_index : Nat
  total_deposits : Nat
  current_root_index : Nat
  roots : List Bytes32
deriving DecidableEq, Repr

/-- `Pool::is_known_root`: `self.roots.iter().any(|r| r == root)`. -/
def Pool.is_known_root (p : Pool) (root : Bytes32) : Bool :=
  p.roots.any (fun r => r == root)

/-- `pub struct NullifierSet` (account state). -/
structure NullifierSet where
  pool : Bytes32
  nullifiers : List Bytes32
deriving DecidableEq, Repr

/-- `NullifierSet::is_nullifier_used`: `self.nullifiers.contains(nullifier_hash)`. -/
def NullifierSet.is_nullifier_used (ns : NullifierSet) (nullifier_hash : Bytes32) : Bool :=
  ns.nullifiers.any (fun n => n == nullifier_hash)

/-- `NullifierSet::mark_nullifier_used`: requires `len < 256` (else
`NullifierSetFull`), then pushes the hash.  Note: no membership check. -/
def NullifierSet.mark_nullifier_used (ns : NullifierSet) (nullifier_hash : Bytes32) :
    Except PrivateTransfersError NullifierSet :=
  if ¬ ns.nullifiers.length < 256 then
    .error .NullifierSetFull
  else
    .ok { ns with nullifiers := ns.nullifiers ++ [nullifier_hash] }

/-- `#[event] pub struct DepositEvent`. -/
structure DepositEvent where
  commitment : Bytes32
  leaf_index : Nat
  timestamp : Int
  new_root : Bytes32
deriving DecidableEq, Repr

/-- `#[event] pub struct WithdrawEvent`. -/
structure WithdrawEvent where
  nullifier_hash : Bytes32
  recipient : Bytes32
  timestamp : Int
deriving DecidableEq, Repr

/-- The persistent on-chain state an instruction acts on: the `Pool`
account, the `NullifierSet` account and the vault PDA's lamport balance. -/
structure ChainState where
  pool : Pool
  nullifier_set : NullifierSet
  vault_balance : Nat
deriving DecidableEq, Repr

/-- The `initialize` handler: zeroes the counters, writes `EMPTY_ROOT`
into slot 0 of the freshly zero-allocated `roots` array, and binds the
`NullifierSet` to the pool.  The vault PDA starts with no pooled value. -/
def initPoolState (authority poolKey : Bytes32) : ChainState :=
  { pool :=
      { authority := authority
        next_leaf_index := 0
        total_deposits := 0
        current_root_index := 0
        roots := (List.replicate ROOT_HISTORY_SIZE ZERO32).set 0 EMPTY_ROOT }
    nullifier_set := { pool := poolKey, nullifiers := [] }
    vault_balance := 0 }

/-- Big-endian bytes of a `u32` (`u32::to_be_bytes`). -/
def u32_to_be_bytes (n : Nat) : List Nat :=
  [n / 2 ^ 24 % 256, n / 2 ^ 16 % 256, n / 2 ^ 8 % 256, n % 256]

/-- Big-endian bytes of a `u64` (`u64::to_be_bytes`). -/
def u64_to_be_bytes (n : Nat) : List Nat :=
  [n / 2 ^ 56 % 256, n / 2 ^ 48 % 256, n / 2 ^ 40 % 256, n / 2 ^ 32 % 256,
   n / 2 ^ 24 % 256, n / 2 ^ 16 % 256, n / 2 ^ 8 % 256, n % 256]

/-- `const NR_PUBLIC_INPUTS: u32 = 4` inside `encode_public_inputs`. -/
def NR_PUBLIC_INPUTS : Nat := 4

/-- `encode_public_inputs`: 12-byte gnark witness header
(`num_public | num_private | vector_len`, each big-endian `u32`) followed by
the four 32-byte public inputs; the amount is written into the last 8 bytes
of a zeroed 32-byte block. -/
def encode_public_inputs (root nullifier_hash recipient : Bytes32) (amount : Nat) :
    List Nat :=
  let amount_bytes := List.replicate 24 0 ++ u64_to_be_bytes (amount % U64_MOD)
  u32_to_be_bytes NR_PUBLIC_INPUTS ++ u32_to_be_bytes 0 ++
    u32_to_be_bytes NR_PUBLIC_INPUTS ++
    root ++ nullifier_hash ++ recipient ++ amount_bytes

/-- The state mutation the `deposit` handler performs once its checks and
the lamport transfer have gone through: record `new_root` at ring-buffer
slot `(current_root_index + 1) % ROOT_HISTORY_SIZE`, advance the pointer,
bump both counters (`u64` arithmetic), credit the vault. -/
def depositApply (s : ChainState) (new_root : Bytes32) (amount : Nat) : ChainState :=
  let new_root_index := (s.pool.current_root_index + 1) % U64_MOD % ROOT_HISTORY_SIZE
  { s with
    pool :=
      { s.pool with
        current_root_index := new_root_index
        roots := s.pool.roots.set new_root_index new_root
        next_leaf_index := (s.pool.next_leaf_index + 1) % U64_MOD
        total_deposits := (s.pool.total_deposits + 1) % U64_MOD }
    vault_balance := s.vault_balance + amount }

/-- The `deposit` handler.  `depositor_balance` is the calling depositor's
lamport balance (the system-program transfer is all-or-nothing); `now` is
the clock sysvar value used for the event timestamp. -/
def deposit (s : ChainState) (commitment new_root : Bytes32)
    (amount depositor_balance : Nat) (now : Int) :
    Except ExecError (ChainState × DepositEvent) :=
  if ¬ s.pool.next_leaf_index < MAX_LEAVES then
    .error (.program .TreeFull)
  else if ¬ MIN_DEPOSIT_AMOUNT ≤ amount then
    .error (.program .DepositTooSmall)
  else if ¬ amount ≤ depositor_balance then
    .error .systemTransferFailed
  else
    let leaf_index := s.pool.next_leaf_index
    .ok (depositApply s new_root amount,
         { commitment := commitment
           leaf_index := leaf_index
           timestamp := now
           new_root := new_root })

/-- The `withdraw` handler.  `recipient_account` is the key of the account
supplied for the fund transfer (`ctx.accounts.recipient`), `recipient` the
instruction argument; `verifier` is the external verifier oracle applied to
the CPI instruction data `proof ++ public_inputs`. -/
def withdraw (s : ChainState) (proof : List Nat)
    (nullifier_hash root recipient : Bytes32) (amount : Nat)
    (recipient_account : Bytes32) (verifier : List Nat → Bool) (now : Int) :
    Except ExecError (ChainState × WithdrawEvent) :=
  if s.nullifier_set.is_nullifier_used nullifier_hash then
    .error (.program .NullifierUsed)
  else if ¬ s.pool.is_known_root root then
    .error (.program .InvalidRoot)
  else if ¬ recipient_account = recipient then
    .error (.program .RecipientMismatch)
  else if ¬ amount ≤ s.vault_balance then
    .error (.program .InsufficientVaultBalance)
  else
    let public_inputs := encode_public_inputs root nullifier_hash recipient amount
    let instruction_data := proof ++ public_inputs
    if ¬ verifier instruction_data then
      .error .verifierFailed
    else
      match s.nullifier_set.mark_nullifier_used nullifier_hash with
      | .error e => .error (.program e)
      | .ok ns' =>
          .ok ({ s with
                 nullifier_set := ns'
                 vault_balance := s.vault_balance - amount },
               { nullifier_hash := nullifier_hash
                 recipient := recipient_account
                 timestamp := now })

/-- Run `deposit` with runtime rollback made explicit: on error the
pre-state is returned unchanged next to the error. -/
def depositRun (s : ChainState) (commitment new_root : Bytes32)
    (amount depositor_balance : Nat) (now : Int) : ChainState × Option ExecError :=
  match deposit s commitment new_root amount depositor_balance now with
  | .ok (s', _) => (s', none)
  | .error e => (s, some e)

/-- Run `withdraw` with runtime rollback made explicit. -/
def withdrawRun (s : ChainState) (proof : List Nat)
    (nullifier_hash root recipient : Bytes32) (amount : Nat)
    (recipient_account : Bytes32) (verifier : List Nat → Bool) (now : Int) :
    ChainState × Option ExecError :=
  match withdraw s proof nullifier_hash root recipient amount recipient_account
      verifier now with
  | .ok (s', _) => (s', none)
  | .error e => (s, some e)

/-- Arguments of one `deposit` invocation. -/
structure DepositArgs where
  commitment : Bytes32
  new_root : Bytes32
  amount : Nat
  depositor_balance : Nat
  now : Int
deriving DecidableEq, Repr

/-- Run a sequence of deposits, stopping at the first failure. -/
def depositSeq (s : ChainState) : List DepositArgs → Except ExecError ChainState
  | [] => .ok s
  | a :: rest =>
      match deposit s a.commitment a.new_root a.amount a.depositor_balance a.now with
      | .error e => .error e
      | .ok (s', _) => depositSeq s' rest

/-- One invocation of either state-mutating instruction, with its
per-invocation inputs (caller balances, accounts, verifier oracle, clock). -/
inductive Op where
  | dep (args : DepositArgs)
  | wd (proof : List Nat) (nullifier_hash root recipient : Bytes32) (amount : Nat)
       (recipient_account : Bytes32) (verifier : List Nat → Bool) (now : Int)

/-- Apply one instruction to the chain state; a failed instruction is
rolled back by the runtime and leaves the state unchanged. -/
def applyOp (s : ChainState) : Op → ChainState
  | .dep a =>
      (depositRun s a.commitment a.new_root a.amount a.depositor_balance a.now).1
  | .wd proof nh root recipient amount recipient_account verifier now =>
      (withdrawRun s proof nh root recipient amount recipient_account verifier now).1

/-- Execute a sequence of instructions. -/
def execOps (s : ChainState) (ops : List Op) : ChainState :=
  ops.foldl applyOp s

/-- States reachable from a freshly initialized pool by any sequence of
`deposit` / `withdraw` invocations. -/
def Reachable (s : ChainState) : Prop :=
  ∃ authority poolKey ops, s = execOps (initPoolState authority poolKey) ops

instance {ε α : Type} [DecidableEq ε] [DecidableEq α] :
    DecidableEq (Except ε α) := fun a b =>
  match a, b with
  | .error e1, .error e2 =>
      if h : e1 = e2 then .isTrue (by rw [h])
      else .isFalse (fun hc => h (by cases hc; rfl))
  | .error _, .ok _ => .isFalse (fun hc => Except.noConfusion hc)
  | .ok _, .error _ => .isFalse (fun hc => Except.noConfusion hc)
  | .ok a1, .ok a2 =>
      if h : a1 = a2 then .isTrue (by rw [h])
      else .isFalse (fun hc => h (by cases hc; rfl))

/-- Interpretation of a byte string as a big-endian unsigned integer; used
to state what the amount block of the encoded public inputs denotes. -/
def beBytesToNat (l : List Nat) : Nat :=
  l.foldl (fun acc b => acc * 256 + b) 0

/-- Structural invariant of the account state, established by the
`initialize` handler and preserved by both instructions. -/
def StateInv (s : ChainState) : Prop :=
  s.pool.next_leaf_index ≤ MAX_LEAVES ∧
  s.pool.total_deposits = s.pool.next_leaf_index ∧
  s.pool.current_root_index < ROOT_HISTORY_SIZE ∧
  s.pool.roots.length = ROOT_HISTORY_SIZE ∧
  s.nullifier_set.nullifiers.Nodup

/-- A pool whose commitment tree is full: `next_leaf_index = MAX_LEAVES`. -/
def fullTreeState : ChainState :=
  { initPoolState [] [] with
    pool := { (initPoolState [] []).pool with next_leaf_index := MAX_LEAVES } }

/-- A state in which the nullifier hash `[7]` is already marked used and
the vault is funded. -/
def usedNullifierState : ChainState :=
  { initPoolState [] [] with
    nullifier_set := { pool := [], nullifiers := [[7]] }
    vault_balance := 5000000 }

/-- `ROOT_HISTORY_SIZE + 1` deposits all submitting the same root `[1]`. -/
def sameRootArgs : List DepositArgs :=
  List.replicate (ROOT_HISTORY_SIZE + 1)
    { commitment := [0], new_root := [1], amount := MIN_DEPOSIT_AMOUNT,
      depositor_balance := MIN_DEPOSIT_AMOUNT, now := 0 }

/-- `ROOT_HISTORY_SIZE + 1` deposits with pairwise distinct roots
`[1], [2], …, [11]`. -/
def distinctRootArgs : List DepositArgs :=
  (List.range (ROOT_HISTORY_SIZE + 1)).map fun k =>
    { commitment := [0], new_root := [k + 1], amount := MIN_DEPOSIT_AMOUNT,
      depositor_balance := MIN_DEPOSIT_AMOUNT, now := 0 }

/-- The state reached by running `distinctRootArgs` from a fresh pool. -/
def distinctRootFinal : ChainState :=
  distinctRootArgs.foldl (fun st a0 => depositApply st a0.new_root a0.amount)
    (initPoolState [] [])

/-! ## Helper lemmas -/

theorem u64_be_roundtrip (n : Nat) (h : n < 2 ^ 64) :
    beBytesToNat (u64_to_be_bytes n) = n := by
  simp [beBytesToNat, u64_to_be_bytes, List.foldl]
  omega

theorem beBytesToNat_pad (l : List Nat) :
    beBytesToNat (List.replicate 24 0 ++ l) = beBytesToNat l := by
  simp [beBytesToNat, List.replicate, List.foldl]

theorem encode_drop_12 (root nullifier_hash recipient : Bytes32) (amount : Nat) :
    (encode_public_inputs root nullifier_hash recipient amount).drop 12
      = root ++ (nullifier_hash ++ (recipient ++
          (List.replicate 24 0 ++ u64_to_be_bytes (amount % U64_MOD)))) := by
  simp [encode_public_inputs, u32_to_be_bytes, NR_PUBLIC_INPUTS]

theorem deposit_ok_state {s : ChainState} {c r : Bytes32} {amount db : Nat}
    {t : Int} {s' : ChainState} {ev : DepositEvent}
    (h : deposit s c r amount db t = .ok (s', ev)) :
    s' = depositApply s r amount ∧ ev.commitment = c ∧
    ev.leaf_index = s.pool.next_leaf_index ∧ ev.new_root = r ∧
    s.pool.next_leaf_index < MAX_LEAVES ∧ MIN_DEPOSIT_AMOUNT ≤ amount := by
  by_cases h1 : s.pool.next_leaf_index < MAX_LEAVES
  · by_cases h2 : MIN_DEPOSIT_AMOUNT ≤ amount
    · by_cases h3 : amount ≤ db
      · simp only [deposit, h1, h2, h3, not_true, not_false_iff, if_false, if_true,
          ite_not, Except.ok.injEq, Prod.mk.injEq] at h
        refine ⟨h.1.symm, ?_, ?_, ?_, h1, h2⟩ <;> simp [← h.2]
      · simp [deposit, h1, h2, h3] at h
    · simp [deposit, h1, h2] at h
  · simp [deposit, h1] at h

theorem withdraw_ok_state {s : ChainState} {proof : List Nat}
    {nullifier_hash root recipient : Bytes32} {amount : Nat}
    {recipient_account : Bytes32} {verifier : List Nat → Bool} {now : Int}
    {s' : ChainState} {ev : WithdrawEvent}
    (h : withdraw s proof nullifier_hash root recipient amount recipient_account
        verifier now = .ok (s', ev)) :
    s.nullifier_set.is_nullifier_used nullifier_hash = false ∧
    s' = { s with
           nullifier_set :=
             { s.nullifier_set with
               nullifiers := s.nullifier_set.nullifiers ++ [nullifier_hash] }
           vault_balance := s.vault_balance - amount } := by
  by_cases h1 : s.nullifier_set.is_nullifier_used nullifier_hash
  · simp [withdraw, h1] at h
  · by_cases h2 : s.pool.is_known_root root
    · by_cases h3 : recipient_account = recipient
      · by_cases h4 : amount ≤ s.vault_balance
        · by_cases h5 : verifier
              (proof ++ encode_public_inputs root nullifier_hash recipient amount)
          · by_cases h6 : s.nullifier_set.nullifiers.length < 256
            · simp only [withdraw, NullifierSet.mark_nullifier_used, h1, h2, h3, h4,
                h5, h6, not_true, not_false_iff, if_false, if_true, ite_not,
                Bool.false_eq_true, Except.ok.injEq, Prod.mk.injEq] at h
              exact ⟨by simpa using h1, h.1.symm⟩
            · simp [withdraw, NullifierSet.mark_nullifier_used, h1, h2, h3, h4,
                h5, h6] at h
          · simp [withdraw, h1, h2, h3, h4, h5] at h
        · simp [withdraw, h1, h2, h3, h4] at h
      · simp [withdraw, h1, h2, h3] at h
    · simp [withdraw, h1, h2] at h

theorem depositRun_state_cases (s : ChainState) (commitment new_root : Bytes32)
    (amount depositor_balance : Nat) (now : Int) :
    (depositRun s commitment new_root amount depositor_balance now).1 = s ∨
    (s.pool.next_leaf_index < MAX_LEAVES ∧
     (depositRun s commitment new_root amount depositor_balance now).1
       = depositApply s new_root amount) := by
  rcases hd : deposit s commitment new_root amount depositor_balance now
    with e | ⟨s2, ev⟩
  · left; simp [depositRun, hd]
  · right
    have h2 := deposit_ok_state hd
    exact ⟨h2.2.2.2.2.1, by simp [depositRun, hd, h2.1]⟩

theorem withdrawRun_state_cases (s : ChainState) (proof : List Nat)
    (nullifier_hash root recipient : Bytes32) (amount : Nat)
    (recipient_account : Bytes32) (verifier : List Nat → Bool) (now : Int) :
    (withdrawRun s proof nullifier_hash root recipient amount recipient_account
        verifier now).1 = s ∨
    (s.nullifier_set.is_nullifier_used nullifier_hash = false ∧
     (withdrawRun s proof nullifier_hash root recipient amount recipient_account
         verifier now).1
       = { s with
           nullifier_set :=
             { s.nullifier_set with
               nullifiers := s.nullifier_set.nullifiers ++ [nullifier_hash] }
           vault_balance := s.vault_balance - amount }) := by
  rcases hw : withdraw s proof nullifier_hash root recipient amount
      recipient_account verifier now with e | ⟨s2, ev⟩
  · left; simp [withdrawRun, hw]
  · right
    have h2 := withdraw_ok_state hw
    exact ⟨h2.1, by simp [withdrawRun, hw, h2.2]⟩

theorem stateInv_depositApply (s : ChainState) (r : Bytes32) (amount : Nat)
    (h : StateInv s) (hlt : s.pool.next_leaf_index < MAX_LEAVES) :
    StateInv (depositApply s r amount) := by
  obtain ⟨h1, h2, h3, h4, h5⟩ := h
  have hM : MAX_LEAVES = 1024 := by decide
  have hU : U64_MOD = 18446744073709551616 := by decide
  refine ⟨?_, ?_, ?_, ?_, ?_⟩
  · show (s.pool.next_leaf_index + 1) % U64_MOD ≤ MAX_LEAVES
    rw [hU]; rw [hM] at hlt ⊢; omega
  · show (s.pool.total_deposits + 1) % U64_MOD
        = (s.pool.next_leaf_index + 1) % U64_MOD
    rw [h2]
  · exact Nat.mod_lt _ (by decide)
  · show (s.pool.roots.set _ r).length = ROOT_HISTORY_SIZE
    rw [List.length_set]; exact h4
  · exact h5

theorem stateInv_applyOp (s : ChainState) (op : Op) (h : StateInv s) :
    StateInv (applyOp s op) := by
  cases op with
  | dep a =>
      rcases depositRun_state_cases s a.commitment a.new_root a.amount
        a.depositor_balance a.now with hc | ⟨hlt, hc⟩
      · simp only [applyOp]; rw [hc]; exact h
      · simp only [applyOp]; rw [hc]
        exact stateInv_depositApply s a.new_root a.amount h hlt
  | wd proof nh root recipient amount ra v t =>
      rcases withdrawRun_state_cases s proof nh root recipient amount ra v t
        with hc | ⟨hused, hc⟩
      · simp only [applyOp]; rw [hc]; exact h
      · obtain ⟨h1, h2, h3, h4, h5⟩ := h
        simp only [applyOp]; rw [hc]
        refine ⟨h1, h2, h3, h4, ?_⟩
        have hnot : nh ∉ s.nullifier_set.nullifiers := by
          simp only [NullifierSet.is_nullifier_used, List.any_eq_false,
            beq_iff_eq] at hused
          exact fun hm => hused nh hm rfl
        simp [List.nodup_append, h5, hnot]

theorem stateInv_execOps (s : ChainState) (ops : List Op) (h : StateInv s) :
    StateInv (execOps s ops) := by
  induction ops generalizing s with
  | nil => simpa [execOps] using h
  | cons op rest ih =>
      simp only [execOps, List.foldl_cons] at *
      exact ih (applyOp s op) (stateInv_applyOp s op h)

theorem stateInv_init (authority poolKey : Bytes32) :
    StateInv (initPoolState authority poolKey) := by
  refine ⟨?_, rfl, ?_, ?_, ?_⟩ <;>
    simp [initPoolState, ROOT_HISTORY_SIZE, MAX_LEAVES, TREE_DEPTH, List.length_set]

theorem reachable_inv {s : ChainState} (h : Reachable s) : StateInv s := by
  obtain ⟨authority, poolKey, ops, rfl⟩ := h
  exact stateInv_execOps _ ops (stateInv_init authority poolKey)

theorem depositSeq_ok {args : List DepositArgs} {s s' : ChainState}
    (h : depositSeq s args = .ok s') :
    s' = args.foldl (fun st a0 => depositApply st a0.new_root a0.amount) s := by
  induction args generalizing s with
  | nil =>
      simp only [depositSeq, Except.ok.injEq] at h
      simpa [List.foldl_nil] using h.symm
  | cons a rest ih =>
      unfold depositSeq at h
      rcases hd : deposit s a.commitment a.new_root a.amount a.depositor_balance a.now
        with e | ⟨s2, ev⟩
      · rw [hd] at h; cases h
      · rw [hd] at h
        rw [List.foldl_cons, ← (deposit_ok_state hd).1]
        exact ih h

theorem u64_mod_small {n : Nat} (h : n < 2048) : n % U64_MOD = n := by
  have hU : U64_MOD = 18446744073709551616 := by decide
  exact Nat.mod_eq_of_lt (by rw [hU]; omega)

/-! ## Claim theorems -/

/-- Claim C5: for all inputs, `encode_public_inputs` returns exactly 140
bytes laid out as the 12-byte gnark header `4 | 0 | 4` (big-endian `u32`s)
followed by `root`, `nullifier_hash`, the recipient's raw bytes, and the
amount as a zero-padded big-endian unsigned integer in the final 32 bytes;
re-encoding the same inputs is deterministic. -/
theorem encode_public_inputs_layout (root nullifier_hash recipient : Bytes32)
    (amount : Nat) (hr : root.length = 32) (hn : nullifier_hash.length = 32)
    (hp : recipient.length = 32) (ha : amount < U64_MOD) :
    (encode_public_inputs root nullifier_hash recipient amount).length = 140 ∧
    (encode_public_inputs root nullifier_hash recipient amount).take 4
      = [0, 0, 0, 4] ∧
    ((encode_public_inputs root nullifier_hash recipient amount).drop 4).take 4
      = [0, 0, 0, 0] ∧
    ((encode_public_inputs root nullifier_hash recipient amount).drop 8).take 4
      = [0, 0, 0, 4] ∧
    ((encode_public_inputs root nullifier_hash recipient amount).drop 12).take 32
      = root ∧
    ((encode_public_inputs root nullifier_hash recipient amount).drop 44).take 32
      = nullifier_hash ∧
    ((encode_public_inputs root nullifier_hash recipient amount).drop 76).take 32
      = recipient ∧
    (encode_public_inputs root nullifier_hash recipient amount).drop 108
      = List.replicate 24 0 ++ u64_to_be_bytes amount ∧
    beBytesToNat ((encode_public_inputs root nullifier_hash recipient amount).drop 108)
      = amount ∧
    encode_public_inputs root nullifier_hash recipient amount
      = encode_public_inputs root nullifier_hash recipient amount := by
  have hmod : amount % U64_MOD = amount := Nat.mod_eq_of_lt ha
  have h12 := encode_drop_12 root nullifier_hash recipient amount
  have h44 : (encode_public_inputs root nullifier_hash recipient amount).drop 44
      = nullifier_hash ++ (recipient ++
          (List.replicate 24 0 ++ u64_to_be_bytes (amount % U64_MOD))) := by
    rw [show (44 : Nat) = 12 + 32 from rfl, ← List.drop_drop, h12, List.drop_left' hr]
  have h76 : (encode_public_inputs root nullifier_hash recipient amount).drop 76
      = recipient ++ (List.replicate 24 0 ++ u64_to_be_bytes (amount % U64_MOD)) := by
    rw [show (76 : Nat) = 44 + 32 from rfl, ← List.drop_drop, h44, List.drop_left' hn]
  have h108 : (encode_public_inputs root nullifier_hash recipient amount).drop 108
      = List.replicate 24 0 ++ u64_to_be_bytes (amount % U64_MOD) := by
    rw [show (108 : Nat) = 76 + 32 from rfl, ← List.drop_drop, h76, List.drop_left' hp]
  refine ⟨?_, ?_, ?_, ?_, ?_, ?_, ?_, ?_, ?_, rfl⟩
  · simp [encode_public_inputs, u32_to_be_bytes, u64_to_be_bytes, NR_PUBLIC_INPUTS,
      hr, hn, hp]
  · simp [encode_public_inputs, u32_to_be_bytes, NR_PUBLIC_INPUTS]
  · simp [encode_public_inputs, u32_to_be_bytes, NR_PUBLIC_INPUTS]
  · simp [encode_public_inputs, u32_to_be_bytes, NR_PUBLIC_INPUTS]
  · rw [h12]; exact List.take_left' hr
  · rw [h44]; exact List.take_left' hn
  · rw [h76]; exact List.take_left' hp
  · rw [h108, hmod]
  · rw [h108, hmod, beBytesToNat_pad, u64_be_roundtrip amount ha]

/-- Witness for C5 at concrete inputs. -/
theorem encode_public_inputs_layout_witness :
    (EMPTY_ROOT.length = 32 ∧ ZERO32.length = 32 ∧ (1000000 : Nat) < U64_MOD) ∧
    (encode_public_inputs EMPTY_ROOT ZERO32 EMPTY_ROOT 1000000).length = 140 :=
  ⟨⟨by decide, by decide, by decide⟩,
   (encode_public_inputs_layout EMPTY_ROOT ZERO32 EMPTY_ROOT 1000000
      (by decide) (by decide) (by decide) (by decide)).1⟩

/-- Claim C1: withdrawing with a nullifier hash already present in the
`NullifierSet` fails with `NullifierUsed` — for every proof, root,
recipient, amount and verifier oracle, even a verifier that accepts — and
the rolled-back state (pool counters, root history, nullifier set, vault
balance) is exactly the pre-state. -/
theorem withdraw_used_nullifier_rejected (s : ChainState) (proof : List Nat)
    (nullifier_hash root recipient : Bytes32) (amount : Nat)
    (recipient_account : Bytes32) (verifier : List Nat → Bool) (now : Int)
    (h : s.nullifier_set.is_nullifier_used nullifier_hash = true) :
    withdrawRun s proof nullifier_hash root recipient amount recipient_account
      verifier now = (s, some (.program .NullifierUsed)) := by
  simp [withdrawRun, withdraw, h]

/-- Witness for C1: the nullifier `[7]` is already used while every later
check would pass (known root, matching recipient, funded vault, accepting
verifier); the invocation still fails with `NullifierUsed`. -/
theorem withdraw_used_nullifier_rejected_witness :
    usedNullifierState.nullifier_set.is_nullifier_used [7] = true ∧
    withdrawRun usedNullifierState [] [7] EMPTY_ROOT [3] 1000000 [3]
      (fun _ => true) 0 = (usedNullifierState, some (.program .NullifierUsed)) :=
  ⟨by decide,
   withdraw_used_nullifier_rejected usedNullifierState [] [7] EMPTY_ROOT [3]
     1000000 [3] (fun _ => true) 0 (by decide)⟩

/-- Counterexample to C4 as stated: an invocation whose recipient account
`[3]` differs from the recipient argument `[2]` but whose root `[1]` is
unknown fails with `InvalidRoot`, not `RecipientMismatch`. -/
theorem withdraw_mismatch_invalid_root_first :
    ([3] : Bytes32) ≠ ([2] : Bytes32) ∧
    withdrawRun (initPoolState [] []) [] [9] [1] [2] 1000000 [3]
      (fun _ => true) 0 ≠ (initPoolState [] [], some (.program .RecipientMismatch)) ∧
    withdrawRun (initPoolState [] []) [] [9] [1] [2] 1000000 [3]
      (fun _ => true) 0 = (initPoolState [] [], some (.program .InvalidRoot)) := by
  refine ⟨by decide, ?_, by decide⟩
  decide

/-- Claim C4 (amended): when the nullifier is unused and the root known,
a withdraw whose recipient account differs from the `recipient` argument
fails with `RecipientMismatch`, with the same rolled-back result for every
verifier oracle — so the verifier CPI is never reached. -/
theorem withdraw_recipient_mismatch_rejected (s : ChainState) (proof : List Nat)
    (nullifier_hash root recipient : Bytes32) (amount : Nat)
    (recipient_account : Bytes32) (verifier : List Nat → Bool) (now : Int)
    (h1 : s.nullifier_set.is_nullifier_used nullifier_hash = false)
    (h2 : s.pool.is_known_root root = true)
    (h3 : recipient_account ≠ recipient) :
    withdrawRun s proof nullifier_hash root recipient amount recipient_account
      verifier now = (s, some (.program .RecipientMismatch)) := by
  simp [withdrawRun, withdraw, h1, h2, h3]

/-- Witness for the amended C4 at concrete inputs. -/
theorem withdraw_recipient_mismatch_rejected_witness :
    ((initPoolState [] []).nullifier_set.is_nullifier_used [9] = false ∧
     (initPoolState [] []).pool.is_known_root EMPTY_ROOT = true ∧
     ([3] : Bytes32) ≠ [2]) ∧
    withdrawRun (initPoolState [] []) [] [9] EMPTY_ROOT [2] 0 [3]
      (fun _ => true) 0 = (initPoolState [] [], some (.program .RecipientMismatch)) :=
  ⟨⟨by decide, by decide, by decide⟩,
   withdraw_recipient_mismatch_rejected (initPoolState [] []) [] [9] EMPTY_ROOT
     [2] 0 [3] (fun _ => true) 0 (by decide) (by decide) (by decide)⟩

/-- Counterexample to C7 as stated: on a pool whose tree is full, a deposit
of 5 lamports (below the minimum) fails with `TreeFull`, not
`DepositTooSmall`, because the tree-capacity check runs first. -/
theorem deposit_small_tree_full_first :
    (5 : Nat) < MIN_DEPOSIT_AMOUNT ∧
    depositRun fullTreeState [0] [1] 5 10 0
      ≠ (fullTreeState, some (.program .DepositTooSmall)) ∧
    depositRun fullTreeState [0] [1] 5 10 0
      = (fullTreeState, some (.program .TreeFull)) := by
  refine ⟨by decide, ?_, by decide⟩
  decide

/-- Claim C7 (amended): on a pool whose tree is not full, depositing with
`amount < MIN_DEPOSIT_AMOUNT` fails with `DepositTooSmall` and changes no
state: the rolled-back result is exactly the pre-state (counters, roots,
vault balance, nullifier set). -/
theorem deposit_below_minimum_rejected (s : ChainState)
    (commitment new_root : Bytes32) (amount depositor_balance : Nat) (now : Int)
    (h1 : s.pool.next_leaf_index < MAX_LEAVES)
    (h2 : amount < MIN_DEPOSIT_AMOUNT) :
    depositRun s commitment new_root amount depositor_balance now
      = (s, some (.program .DepositTooSmall)) := by
  simp [depositRun, deposit, h1, not_le_of_lt h2]

/-- Witness for the amended C7 at concrete inputs. -/
theorem deposit_below_minimum_rejected_witness :
    ((initPoolState [] []).pool.next_leaf_index < MAX_LEAVES ∧
     (5 : Nat) < MIN_DEPOSIT_AMOUNT) ∧
    depositRun (initPoolState [] []) [0] [1] 5 10 0
      = (initPoolState [] [], some (.program .DepositTooSmall)) :=
  ⟨⟨by decide, by decide⟩,
   deposit_below_minimum_rejected (initPoolState [] []) [0] [1] 5 10 0
     (by decide) (by decide)⟩

/-- Counterexample to C2 as stated: `NullifierSet.mark_nullifier_used`
performs no duplicate check of its own — with `[7]` already marked used,
marking `[7]` again succeeds and appends a second copy instead of failing. -/
theorem mark_nullifier_used_accepts_duplicate :
    NullifierSet.is_nullifier_used { pool := [], nullifiers := [[7]] } [7] = true ∧
    NullifierSet.mark_nullifier_used { pool := [], nullifiers := [[7]] } [7]
      = .ok { pool := [], nullifiers := [[7], [7]] } :=
  ⟨by decide, by decide⟩

/-- Claim C2 (amended): `mark_nullifier_used` does not itself reject
duplicate insertion — whenever fewer than 256 entries are stored it appends
the value, present already or not; the at-most-once property is enforced by
its caller: `withdraw` refuses a used nullifier before marking, so in every
reachable state the nullifier list is duplicate-free. -/
theorem mark_nullifier_dedup_by_caller (ns : NullifierSet)
    (nullifier_hash : Bytes32) (hlen : ns.nullifiers.length < 256) :
    NullifierSet.mark_nullifier_used ns nullifier_hash
      = .ok { ns with nullifiers := ns.nullifiers ++ [nullifier_hash] } ∧
    (∀ s : ChainState, Reachable s → s.nullifier_set.nullifiers.Nodup) :=
  ⟨by simp [NullifierSet.mark_nullifier_used, hlen],
   fun _ hs => (reachable_inv hs).2.2.2.2⟩

/-- Witness for the amended C2 at concrete inputs: marking `[7]` a second
time appends a duplicate, while the freshly initialized reachable state has
a duplicate-free list. -/
theorem mark_nullifier_dedup_by_caller_witness :
    (({ pool := [], nullifiers := [[7]] } : NullifierSet)).nullifiers.length < 256 ∧
    NullifierSet.mark_nullifier_used { pool := [], nullifiers := [[7]] } [7]
      = .ok { pool := [], nullifiers := [[7], [7]] } :=
  ⟨by decide,
   (mark_nullifier_dedup_by_caller { pool := [], nullifiers := [[7]] } [7]
      (by decide)).1⟩

/-- Claim C6: every successful deposit (from any reachable state)
increments `total_deposits` and `next_leaf_index` by exactly 1, records the
submitted `new_root` at ring-buffer slot
`(current_root_index + 1) % ROOT_HISTORY_SIZE` with the pointer advanced to
that slot, makes `is_known_root new_root` true immediately, and emits a
`DepositEvent` carrying the pre-increment `next_leaf_index`. -/
theorem deposit_success_effects (s : ChainState) (hs : Reachable s)
    (commitment new_root : Bytes32) (amount depositor_balance : Nat) (now : Int)
    (s' : ChainState) (ev : DepositEvent)
    (h : deposit s commitment new_root amount depositor_balance now
        = .ok (s', ev)) :
    s'.pool.next_leaf_index = s.pool.next_leaf_index + 1 ∧
    s'.pool.total_deposits = s.pool.total_deposits + 1 ∧
    s'.pool.current_root_index
      = (s.pool.current_root_index + 1) % ROOT_HISTORY_SIZE ∧
    s'.pool.roots
      = s.pool.roots.set ((s.pool.current_root_index + 1) % ROOT_HISTORY_SIZE)
          new_root ∧
    s'.pool.is_known_root new_root = true ∧
    ev.commitment = commitment ∧ ev.leaf_index = s.pool.next_leaf_index ∧
    ev.new_root = new_root := by
  obtain ⟨i1, i2, i3, i4, i5⟩ := reachable_inv hs
  obtain ⟨hs', hc, hl, hr, hlt, hmin⟩ := deposit_ok_state h
  subst hs'
  have hM : MAX_LEAVES = 1024 := by decide
  have hR : ROOT_HISTORY_SIZE = 10 := by decide
  have hnl : (s.pool.next_leaf_index + 1) % U64_MOD = s.pool.next_leaf_index + 1 :=
    u64_mod_small (by rw [hM] at hlt; omega)
  have htd : (s.pool.total_deposits + 1) % U64_MOD = s.pool.total_deposits + 1 :=
    u64_mod_small (by rw [hM] at hlt; rw [i2]; omega)
  have hcri : (s.pool.current_root_index + 1) % U64_MOD
      = s.pool.current_root_index + 1 :=
    u64_mod_small (by rw [hR] at i3; omega)
  refine ⟨?_, ?_, ?_, ?_, ?_, hc, hl, hr⟩
  · simp [depositApply, hnl]
  · simp [depositApply, htd]
  · simp [depositApply, hcri]
  · simp [depositApply, hcri]
  · have hidx : (s.pool.current_root_index + 1) % U64_MOD % ROOT_HISTORY_SIZE
        < s.pool.roots.length := by
      rw [i4]; exact Nat.mod_lt _ (by decide)
    simp only [depositApply, Pool.is_known_root]
    rw [List.any_eq_true]
    exact ⟨new_root, List.mem_set _ _ hidx _, by simp⟩

/-- Witness for C6: a first deposit of root `[1]` from the freshly
initialized pool; the submitted root is known immediately afterwards. -/
theorem deposit_success_effects_witness :
    deposit (initPoolState [] []) [0] [1] 1000000 1000000 0
      = .ok (depositApply (initPoolState [] []) [1] 1000000,
             { commitment := [0], leaf_index := 0, timestamp := 0,
               new_root := [1] }) ∧
    (depositApply (initPoolState [] []) [1] 1000000).pool.is_known_root [1]
      = true :=
  ⟨by decide,
   (deposit_success_effects (initPoolState [] []) ⟨[], [], [], rfl⟩ [0] [1]
      1000000 1000000 0 (depositApply (initPoolState [] []) [1] 1000000)
      { commitment := [0], leaf_index := 0, timestamp := 0, new_root := [1] }
      (by decide)).2.2.2.2.1⟩

/-- Claim C8: in every reachable state `next_leaf_index ≤ MAX_LEAVES`:
`deposit` refuses with `TreeFull` (state unchanged) whenever
`next_leaf_index` has reached `MAX_LEAVES`, a successful deposit increments
it by exactly 1, and `withdraw` never modifies the pool at all. -/
theorem next_leaf_index_bounded :
    (∀ s : ChainState, Reachable s → s.pool.next_leaf_index ≤ MAX_LEAVES) ∧
    (∀ (s : ChainState) (commitment new_root : Bytes32)
        (amount depositor_balance : Nat) (now : Int),
        MAX_LEAVES ≤ s.pool.next_leaf_index →
        depositRun s commitment new_root amount depositor_balance now
          = (s, some (.program .TreeFull))) ∧
    (∀ (s : ChainState) (commitment new_root : Bytes32)
        (amount depositor_balance : Nat) (now : Int) (s' : ChainState)
        (ev : DepositEvent),
        deposit s commitment new_root amount depositor_balance now
          = .ok (s', ev) →
        s'.pool.next_leaf_index = s.pool.next_leaf_index + 1) ∧
    (∀ (s : ChainState) (proof : List Nat)
        (nullifier_hash root recipient : Bytes32) (amount : Nat)
        (recipient_account : Bytes32) (verifier : List Nat → Bool) (now : Int),
        (withdrawRun s proof nullifier_hash root recipient amount
           recipient_account verifier now).1.pool = s.pool) := by
  refine ⟨fun s hs => (reachable_inv hs).1, ?_, ?_, ?_⟩
  · intro s commitment new_root amount depositor_balance now h
    simp [depositRun, deposit, Nat.not_lt.mpr h]
  · intro s commitment new_root amount depositor_balance now s' ev h
    obtain ⟨hs', _, _, _, hlt, _⟩ := deposit_ok_state h
    subst hs'
    have hM : MAX_LEAVES = 1024 := by decide
    have hx : (s.pool.next_leaf_index + 1) % U64_MOD
        = s.pool.next_leaf_index + 1 :=
      u64_mod_small (by rw [hM] at hlt; omega)
    simp [depositApply, hx]
  · intro s proof nullifier_hash root recipient amount recipient_account
      verifier now
    rcases withdrawRun_state_cases s proof nullifier_hash root recipient amount
      recipient_account verifier now with hc | ⟨_, hc⟩ <;> rw [hc]

/-- Witness for C8: a full tree refuses a well-funded, large-enough deposit
with `TreeFull` and leaves the state unchanged. -/
theorem next_leaf_index_bounded_witness :
    MAX_LEAVES ≤ fullTreeState.pool.next_leaf_index ∧
    depositRun fullTreeState [0] [1] 1000000 1000000 0
      = (fullTreeState, some (.program .TreeFull)) :=
  ⟨by decide,
   next_leaf_index_bounded.2.1 fullTreeState [0] [1] 1000000 1000000 0
     (by decide)⟩

/-- Claim C9: `total_deposits` equals `next_leaf_index` in every reachable
state: both are zero at initialization, a successful deposit from a
reachable state increments both by exactly 1, and `withdraw` modifies
neither counter. -/
theorem total_deposits_tracks_leaf_index :
    (∀ authority poolKey : Bytes32,
        (initPoolState authority poolKey).pool.next_leaf_index = 0 ∧
        (initPoolState authority poolKey).pool.total_deposits = 0) ∧
    (∀ s : ChainState, Reachable s →
        s.pool.total_deposits = s.pool.next_leaf_index) ∧
    (∀ (s : ChainState), Reachable s →
        ∀ (commitment new_root : Bytes32) (amount depositor_balance : Nat)
          (now : Int) (s' : ChainState) (ev : DepositEvent),
          deposit s commitment new_root amount depositor_balance now
            = .ok (s', ev) →
          s'.pool.total_deposits = s.pool.total_deposits + 1 ∧
          s'.pool.next_leaf_index = s.pool.next_leaf_index + 1) ∧
    (∀ (s : ChainState) (proof : List Nat)
        (nullifier_hash root recipient : Bytes32) (amount : Nat)
        (recipient_account : Bytes32) (verifier : List Nat → Bool) (now : Int),
        (withdrawRun s proof nullifier_hash root recipient amount
            recipient_account verifier now).1.pool.total_deposits
          = s.pool.total_deposits ∧
        (withdrawRun s proof nullifier_hash root recipient amount
            recipient_account verifier now).1.pool.next_leaf_index
          = s.pool.next_leaf_index) := by
  refine ⟨fun _ _ => ⟨rfl, rfl⟩, fun s hs => (reachable_inv hs).2.1, ?_, ?_⟩
  · intro s hs commitment new_root amount depositor_balance now s' ev h
    obtain ⟨i1, i2, i3, i4, i5⟩ := reachable_inv hs
    obtain ⟨hs', _, _, _, hlt, _⟩ := deposit_ok_state h
    subst hs'
    have hM : MAX_LEAVES = 1024 := by decide
    have hx : (s.pool.next_leaf_index + 1) % U64_MOD
        = s.pool.next_leaf_index + 1 :=
      u64_mod_small (by rw [hM] at hlt; omega)
    have hy : (s.pool.total_deposits + 1) % U64_MOD
        = s.pool.total_deposits + 1 :=
      u64_mod_small (by rw [hM] at hlt; rw [i2]; omega)
    constructor
    · simp [depositApply, hy]
    · simp [depositApply, hx]
  · intro s proof nullifier_hash root recipient amount recipient_account
      verifier now
    rcases withdrawRun_state_cases s proof nullifier_hash root recipient amount
      recipient_account verifier now with hc | ⟨_, hc⟩ <;> rw [hc] <;>
      exact ⟨rfl, rfl⟩

/-- Witness for C9: after one successful deposit from the fresh pool the
two counters are still equal. -/
theorem total_deposits_tracks_leaf_index_witness :
    (execOps (initPoolState [] [])
        [Op.dep { commitment := [0], new_root := [1], amount := 1000000,
                  depositor_balance := 1000000, now := 0 }]).pool.total_deposits
      = (execOps (initPoolState [] [])
        [Op.dep { commitment := [0], new_root := [1], amount := 1000000,
                  depositor_balance := 1000000, now := 0 }]).pool.next_leaf_index :=
  total_deposits_tracks_leaf_index.2.1 _ ⟨[], [], _, rfl⟩

/-- Counterexample to C3 as stated: eleven sequential successful deposits
can all submit the same root `[1]`; afterwards the very first deposit's
root is still known (a later deposit re-submitted the same value), so
`is_known_root` on it does not return false. -/
theorem root_history_first_root_can_stay_known :
    sameRootArgs.length = ROOT_HISTORY_SIZE + 1 ∧
    (sameRootArgs.map DepositArgs.new_root).head? = some [1] ∧
    (depositSeq (initPoolState [] []) sameRootArgs).map
      (fun s => s.pool.is_known_root [1]) = .ok true :=
  ⟨by decide, by decide, by decide⟩

/-- Claim C3 (amended): starting from a fresh pool, after exactly
`ROOT_HISTORY_SIZE + 1` (= 11) sequential successful deposits whose first
submitted root differs from the ten later submitted roots, `is_known_root`
on the first deposit's root returns false, while it returns true on each of
the ten most recent deposits' roots.  (The distinctness proviso is forced:
a later deposit re-submitting the first root keeps it in the buffer.) -/
theorem root_history_window (authority poolKey : Bytes32)
    (args : List DepositArgs) (s : ChainState) (r1 : Bytes32)
    (hlen : args.length = ROOT_HISTORY_SIZE + 1)
    (hrun : depositSeq (initPoolState authority poolKey) args = .ok s)
    (hhead : (args.map DepositArgs.new_root).head? = some r1)
    (hfresh : r1 ∉ (args.map DepositArgs.new_root).tail) :
    s.pool.is_known_root r1 = false ∧
    ∀ r ∈ (args.map DepositArgs.new_root).tail,
      s.pool.is_known_root r = true := by
  obtain ⟨a1, a2, a3, a4, a5, a6, a7, a8, a9, a10, a11, rfl⟩ :
      ∃ b1 b2 b3 b4 b5 b6 b7 b8 b9 b10 b11,
        args = [b1, b2, b3, b4, b5, b6, b7, b8, b9, b10, b11] := by
    rcases args with _ | ⟨b1, _ | ⟨b2, _ | ⟨b3, _ | ⟨b4, _ | ⟨b5, _ | ⟨b6,
      _ | ⟨b7, _ | ⟨b8, _ | ⟨b9, _ | ⟨b10, _ | ⟨b11,
      _ | ⟨b12, rest⟩⟩⟩⟩⟩⟩⟩⟩⟩⟩⟩⟩ <;>
      simp only [List.length_nil, List.length_cons, ROOT_HISTORY_SIZE] at hlen <;>
      first
        | omega
        | exact ⟨b1, b2, b3, b4, b5, b6, b7, b8, b9, b10, b11, rfl⟩
  have hs := depositSeq_ok hrun
  subst hs
  simp only [List.map_cons, List.map_nil, List.head?_cons,
    Option.some.injEq] at hhead
  subst hhead
  simp only [List.map_cons, List.map_nil, List.tail_cons, List.mem_cons,
    List.not_mem_nil, not_or] at hfresh
  obtain ⟨f2, f3, f4, f5, f6, f7, f8, f9, f10, f11, -⟩ := hfresh
  have hroots :
      (([a1, a2, a3, a4, a5, a6, a7, a8, a9, a10, a11].foldl
          (fun st a0 => depositApply st a0.new_root a0.amount)
          (initPoolState authority poolKey))).pool.roots
        = [a10.new_root, a11.new_root, a2.new_root, a3.new_root, a4.new_root,
           a5.new_root, a6.new_root, a7.new_root, a8.new_root, a9.new_root] := by
    simp [depositApply, initPoolState, ROOT_HISTORY_SIZE, U64_MOD, List.replicate]
  constructor
  · simp only [Pool.is_known_root, hroots, List.any_cons, List.any_nil,
      Bool.or_eq_false_iff, beq_eq_false_iff_ne]
    exact ⟨Ne.symm f10, Ne.symm f11, Ne.symm f2, Ne.symm f3, Ne.symm f4,
      Ne.symm f5, Ne.symm f6, Ne.symm f7, Ne.symm f8, Ne.symm f9, trivial⟩
  · intro r hr
    simp only [List.map_cons, List.map_nil, List.tail_cons, List.mem_cons,
      List.not_mem_nil, or_false] at hr
    rcases hr with rfl | rfl | rfl | rfl | rfl | rfl | rfl | rfl | rfl | rfl <;>
      simp only [Pool.is_known_root, hroots] <;> simp

/-- Witness for the amended C3: eleven deposits with distinct roots
`[1] … [11]`; the first root is no longer known afterwards. -/
theorem root_history_window_witness :
    distinctRootArgs.length = ROOT_HISTORY_SIZE + 1 ∧
    distinctRootFinal.pool.is_known_root [1] = false :=
  ⟨by decide,
   (root_history_window [] [] distinctRootArgs distinctRootFinal [1]
      (by decide) (by decide) (by decide) (by decide)).1⟩

/-- Claim C10: the `commitment` argument of `deposit` influences neither
the success/failure outcome nor the resulting persisted state (pool,
nullifier set, vault); it only appears in the emitted `DepositEvent`.
Two deposits from the same state that differ only in `commitment` produce
identical run results and events identical outside the commitment field. -/
theorem deposit_commitment_independent (s : ChainState) (c1 c2 new_root : Bytes32)
    (amount depositor_balance : Nat) (now : Int) :
    depositRun s c1 new_root amount depositor_balance now
      = depositRun s c2 new_root amount depositor_balance now ∧
    (deposit s c1 new_root amount depositor_balance now).map
        (fun r => (r.1, r.2.leaf_index, r.2.timestamp, r.2.new_root))
      = (deposit s c2 new_root amount depositor_balance now).map
        (fun r => (r.1, r.2.leaf_index, r.2.timestamp, r.2.new_root)) := by
  by_cases h1 : s.pool.next_leaf_index < MAX_LEAVES <;>
    by_cases h2 : MIN_DEPOSIT_AMOUNT ≤ amount <;>
      by_cases h3 : amount ≤ depositor_balance <;>
        simp [depositRun, deposit, Except.map, h1, h2, h3]

end PrivateTransfers
